import Mathlib

/-!
# lazysql: the ClickHouse driver (`drivers/clickhouse.go`)

A shallow embedding of the ClickHouse driver's pure parts: the dialect
formatter (`FormatArg`, `FormatReference`, `formatTableName`), the preview
builder `DMLChangeToQueryString`, the header-only schema introspection
(`GetConstraints`, `GetForeignKeys`), the `ORDER BY` heuristic
`extractColumnsFromCreateQuery`, the cell rendering loop of `GetRecords`
and the batching loop of `ExecutePendingChanges`.

A Go `string` is an immutable sequence of bytes; it is modelled as the list
of its bytes, each byte a natural number below 256.  All indices are byte
offsets, as in Go.
-/

namespace Lazysql

/-! ## Go strings -/

/-- A Go string: its bytes in order. -/
abbrev GoString := List Nat

/-- UTF-8 encoding of one rune (Go's `utf8.AppendRune`): a surrogate or a value
above U+10FFFF is written as the replacement character U+FFFD. -/
def utf8EncodeRune (r : Nat) : List Nat :=
  if r < 0x80 then [r]
  else if r < 0x800 then [0xC0 + r / 64, 0x80 + r % 64]
  else if 0x10FFFF < r ∨ (0xD800 ≤ r ∧ r ≤ 0xDFFF) then [0xEF, 0xBF, 0xBD]
  else if r < 0x10000 then [0xE0 + r / 4096, 0x80 + r / 64 % 64, 0x80 + r % 64]
  else [0xF0 + r / 262144, 0x80 + r / 4096 % 64, 0x80 + r / 64 % 64, 0x80 + r % 64]

/-- The bytes of a Go string literal (Go source text is UTF-8). -/
def lit (s : String) : GoString :=
  s.toList.flatMap (fun c => utf8EncodeRune c.toNat)

/-- Go's `errors.New(msg)`: the error is identified by its message. -/
abbrev GoError := GoString

/-- A tabular result: rows of string cells. -/
abbrev Table := List (List GoString)

/-! ## The parts of Go's `strings` and `fmt` packages the driver calls -/

/-- `strings.HasPrefix(s, prefix)`. -/
def HasPrefix (s pre : GoString) : Bool := pre.isPrefixOf s

/-- `strings.HasSuffix(s, suffix)`. -/
def HasSuffix (s suffix : GoString) : Bool := suffix.isSuffixOf s

/-- The loop of `strings.Replace(s, old, new, -1)` for a non-empty `old`:
scan left to right, replace each occurrence of `old` by `new` and resume
after it (occurrences do not overlap).  `skip` counts the bytes of a matched
occurrence still to be stepped over. -/
def replaceLoop (old new : GoString) : Nat → GoString → GoString
  | _, [] => []
  | skip + 1, _ :: s => replaceLoop old new skip s
  | 0, c :: s =>
    if HasPrefix (c :: s) old then new ++ replaceLoop old new (old.length - 1) s
    else c :: replaceLoop old new 0 s

/-- `strings.ReplaceAll(s, old, new)` for a non-empty `old` (the driver only
replaces the one-byte string `"'"`). -/
def ReplaceAll (s old new : GoString) : GoString := replaceLoop old new 0 s

/-- `strings.TrimRight(s, cutset)` for a cutset of one ASCII byte `c`
(Go's `trimRightByte`): drop the longest suffix made of `c` only. -/
def trimRightByte (c : Nat) : GoString → GoString
  | [] => []
  | x :: s =>
    match trimRightByte c s with
    | [] => if x = c then [] else [x]
    | y :: r => x :: y :: r

/-- Decimal digits of `n`, most significant first, pushed in front of `acc`. -/
def digitsAux : Nat → Nat → List Nat → List Nat
  | 0, _, acc => acc
  | fuel + 1, n, acc =>
    if n < 10 then (48 + n) :: acc
    else digitsAux fuel (n / 10) ((48 + n % 10) :: acc)

/-- Decimal text of a natural number (`strconv.Itoa` on a non-negative value). -/
def formatNat (n : Nat) : GoString := digitsAux (n + 1) n []

/-- `fmt.Sprintf("%d", v)` for an `int` or `int64`. -/
def sprintD (v : Int) : GoString :=
  if v < 0 then 45 :: formatNat v.natAbs else formatNat v.natAbs

/-- A `float64` or `float32` value: a finite value is `(-1)^neg * mant * 2^exp`
(every finite IEEE-754 binary float has this form, negative zero included),
otherwise it is an infinity or a NaN. -/
inductive GoFloat where
  | finite (neg : Bool) (mant : Nat) (exp : Int)
  | inf (neg : Bool)
  | nan
deriving DecidableEq, Repr

/-- The magnitude `mant * 2^exp` in millionths, rounded to the nearest integer,
ties to even: `strconv` formats with precision 6 by exact decimal conversion
and round-half-even. -/
def roundMillionths (mant : Nat) (exp : Int) : Nat :=
  match exp with
  | Int.ofNat k => mant * 2 ^ k * 1000000
  | Int.negSucc k =>
    let d := 2 ^ (k + 1)
    let n := mant * 1000000
    let q := n / d
    let r := n % d
    if d < 2 * r ∨ (2 * r = d ∧ q % 2 = 1) then q + 1 else q

/-- Six decimal digits of a number below one million, zero padded. -/
def sixDigits (f : Nat) : GoString :=
  [48 + f / 100000 % 10, 48 + f / 10000 % 10, 48 + f / 1000 % 10,
   48 + f / 100 % 10, 48 + f / 10 % 10, 48 + f % 10]

/-- `fmt.Sprintf("%f", v)` for a float: sign, integer digits, a point and six
fractional digits for a finite value; `NaN`, `+Inf`, `-Inf` otherwise. -/
def sprintF : GoFloat → GoString
  | .finite neg mant exp =>
    let q := roundMillionths mant exp
    (if neg then lit "-" else lit "") ++ formatNat (q / 1000000) ++ lit "." ++
      sixDigits (q % 1000000)
  | .inf false => lit "+Inf"
  | .inf true => lit "-Inf"
  | .nan => lit "NaN"

/-! ## Values and the dialect formatter -/

/-- The dynamic value held by a Go `any` as `FormatArg` distinguishes it:
`int`/`int64`, `float64`/`float32`, `string`, `[]byte`, and any other dynamic
type, which is carried as the text `%v` prints for it. -/
inductive GoValue where
  | int (v : Int)
  | float (v : GoFloat)
  | str (v : GoString)
  | bytes (v : GoString)
  | other (rendered : GoString)
deriving DecidableEq, Repr

/-- `Clickhouse.formatTableName`: both names between backticks, joined by a dot. -/
def formatTableName (database table : GoString) : GoString :=
  lit "`" ++ database ++ lit "`.`" ++ table ++ lit "`"

/-- `Clickhouse.FormatArg`.  The guard `arg == "NULL" || arg == "DEFAULT"`
compares an interface with a string, so it holds only for a dynamic `string`
with that content, and `%v` then prints the string itself. -/
def FormatArg (arg : GoValue) : GoString :=
  match arg with
  | .str v =>
    if v = lit "NULL" ∨ v = lit "DEFAULT" then v
    else
      let escaped := ReplaceAll v (lit "'") (lit "''")
      lit "'" ++ escaped ++ lit "'"
  | .int v => sprintD v
  | .float v =>
    let s := sprintF v
    let trimmed := trimRightByte 48 s
    if HasSuffix trimmed (lit ".") then trimmed ++ lit "0" else trimmed
  | .bytes v =>
    let escaped := ReplaceAll v (lit "'") (lit "''")
    lit "'" ++ escaped ++ lit "'"
  | .other rendered => rendered

/-- `Clickhouse.FormatReference`: the identifier between backticks. -/
def FormatReference (reference : GoString) : GoString :=
  lit "`" ++ reference ++ lit "`"

/-- `Clickhouse.FormatPlaceholder`: always a question mark. -/
def FormatPlaceholder (_ : Nat) : GoString := lit "?"

/-! ## Reading a literal back, as the spec words it -/

/-- Follows the spec's words: `s` with every single quote doubled. -/
def doubleQuotes (s : GoString) : GoString :=
  s.flatMap (fun c => if c = 39 then [39, 39] else [c])

/-- Follows the spec's words: replace each doubled quote by one quote, left to right. -/
def undoubleQuotes : GoString → GoString
  | [] => []
  | [c] => [c]
  | c :: d :: r =>
    if c = 39 ∧ d = 39 then 39 :: undoubleQuotes r
    else c :: undoubleQuotes (d :: r)

/-- Follows the spec's words: read a quoted SQL literal back: strip the two
outer quotes and undouble the quotes of the body; `none` when the text is not
between two quotes. -/
def sqlReadLiteral (t : GoString) : Option GoString :=
  match t with
  | [] => none
  | q :: rest =>
    if q = 39 ∧ rest.getLast? = some 39 then some (undoubleQuotes rest.dropLast)
    else none

/-! ## Schema introspection without a catalogue -/

/-- `Clickhouse.GetConstraints`: validates both names, then returns the header row only. -/
def GetConstraints (database table : GoString) : Except GoError Table :=
  if database = lit "" then .error (lit "database name is required")
  else if table = lit "" then .error (lit "table name is required")
  else
    let results : Table := []
    let results := results ++
      [[lit "CONSTRAINT_NAME", lit "COLUMN_NAME", lit "REFERENCED_TABLE_NAME",
        lit "REFERENCED_COLUMN_NAME"]]
    .ok results

/-- `Clickhouse.GetForeignKeys`: validates both names, then returns the header row only. -/
def GetForeignKeys (database table : GoString) : Except GoError Table :=
  if database = lit "" then .error (lit "database name is required")
  else if table = lit "" then .error (lit "table name is required")
  else
    let results : Table := []
    let results := results ++
      [[lit "TABLE_NAME", lit "COLUMN_NAME", lit "CONSTRAINT_NAME",
        lit "REFERENCED_COLUMN_NAME", lit "REFERENCED_TABLE_NAME"]]
    .ok results

/-- Whether a call returned an error. -/
def isError {ε α : Type} : Except ε α → Bool
  | .error _ => true
  | .ok _ => false

/-! ## More of Go's `strings`, `unicode` and `unicode/utf8` packages -/

/-- `strings.Join(elems, sep)`. -/
def Join : List GoString → GoString → GoString
  | [], _ => []
  | [a], _ => a
  | a :: b :: rest, sep => a ++ sep ++ Join (b :: rest) sep

/-- `strings.Index(s, substr)`: byte offset of the first occurrence, `none` for Go's `-1`. -/
def Index : GoString → GoString → Option Nat
  | [], substr => if substr = [] then some 0 else none
  | c :: s, substr =>
    if HasPrefix (c :: s) substr then some 0 else (Index s substr).map (· + 1)

/-- `strings.IndexAny(s, chars)` for a `chars` of ASCII bytes only: byte offset of
the first byte of `s` that occurs in `chars`, `none` for Go's `-1`. -/
def IndexAny : GoString → GoString → Option Nat
  | [], _ => none
  | c :: s, chars => if c ∈ chars then some 0 else (IndexAny s chars).map (· + 1)

/-- The loop of `strings.Split(s, sep)` for a non-empty `sep`: cut at every
occurrence of `sep`, left to right, occurrences not overlapping.  `skip`
counts the bytes of a matched separator still to be stepped over. -/
def splitLoop (sep : GoString) : Nat → GoString → List GoString
  | _, [] => [[]]
  | skip + 1, _ :: s => splitLoop sep skip s
  | 0, c :: s =>
    if HasPrefix (c :: s) sep then [] :: splitLoop sep (sep.length - 1) s
    else
      match splitLoop sep 0 s with
      | [] => [[c]]
      | h :: t => (c :: h) :: t

/-- `strings.Split(s, sep)` for a non-empty `sep`. -/
def Split (s sep : GoString) : List GoString := splitLoop sep 0 s

/-- The slice expression `s[i:]`: `none` is the run-time panic
"slice bounds out of range". -/
def sliceFrom (s : GoString) (i : Nat) : Option GoString :=
  if i ≤ s.length then some (s.drop i) else none

/-- `utf8.RuneError`, the replacement character U+FFFD. -/
def RuneError : Nat := 0xFFFD

/-- A UTF-8 continuation byte. -/
def isCont (b : Nat) : Bool := 0x80 ≤ b ∧ b ≤ 0xBF

/-- `utf8.DecodeRuneInString(s)` on a non-empty `s`: the first rune and its
width in bytes; an invalid or truncated encoding is `(RuneError, 1)`. -/
def DecodeRuneInString : GoString → Nat × Nat
  | [] => (RuneError, 0)
  | b0 :: rest =>
    if b0 < 0x80 then (b0, 1)
    else if 0xC2 ≤ b0 ∧ b0 ≤ 0xDF then
      match rest with
      | b1 :: _ =>
        if isCont b1 then ((b0 - 0xC0) * 64 + (b1 - 0x80), 2) else (RuneError, 1)
      | _ => (RuneError, 1)
    else if 0xE0 ≤ b0 ∧ b0 ≤ 0xEF then
      match rest with
      | b1 :: b2 :: _ =>
        let lo := if b0 = 0xE0 then 0xA0 else 0x80
        let hi := if b0 = 0xED then 0x9F else 0xBF
        if lo ≤ b1 ∧ b1 ≤ hi ∧ isCont b2 then
          ((b0 - 0xE0) * 4096 + (b1 - 0x80) * 64 + (b2 - 0x80), 3)
        else (RuneError, 1)
      | _ => (RuneError, 1)
    else if 0xF0 ≤ b0 ∧ b0 ≤ 0xF4 then
      match rest with
      | b1 :: b2 :: b3 :: _ =>
        let lo := if b0 = 0xF0 then 0x90 else 0x80
        let hi := if b0 = 0xF4 then 0x8F else 0xBF
        if lo ≤ b1 ∧ b1 ≤ hi ∧ isCont b2 ∧ isCont b3 then
          ((b0 - 0xF0) * 262144 + (b1 - 0x80) * 4096 + (b2 - 0x80) * 64 + (b3 - 0x80), 4)
        else (RuneError, 1)
      | _ => (RuneError, 1)
    else (RuneError, 1)

/-- The runes of a string as `for _, c := range s` yields them, each with the
bytes it was decoded from.  `skip` counts the bytes of the current rune still
to be stepped over. -/
def runesLoop : Nat → GoString → List (Nat × GoString)
  | _, [] => []
  | skip + 1, _ :: s => runesLoop skip s
  | 0, c :: s =>
    let d := DecodeRuneInString (c :: s)
    (d.1, (c :: s).take d.2) :: runesLoop (d.2 - 1) s

/-- The runes of a string, each with its bytes. -/
def runes (s : GoString) : List (Nat × GoString) := runesLoop 0 s

/-- `strings.Map(mapping, s)` for a mapping that never drops a rune: every
rune of `s` is replaced by the encoding of its image (an invalid byte reads
as `RuneError`). -/
def Map (mapping : Nat → Nat) (s : GoString) : GoString :=
  (runes s).flatMap (fun c => utf8EncodeRune (mapping c.1))

/-- `strings.ToUpper(s)`.  A string of ASCII bytes only is upper-cased byte by
byte; any other string goes through `strings.Map(unicode.ToUpper, s)`.  The
case table `unicode.ToUpper` is the parameter `unicodeToUpper`. -/
def ToUpper (unicodeToUpper : Nat → Nat) (s : GoString) : GoString :=
  let isASCII := s.all (fun c => c < 0x80)
  let hasLower := s.any (fun c => 97 ≤ c ∧ c ≤ 122)
  if isASCII then
    if !hasLower then s
    else s.map (fun c => if 97 ≤ c ∧ c ≤ 122 then c - 32 else c)
  else Map unicodeToUpper s

/-- `unicode.IsSpace(r)`: the Unicode White_Space property. -/
def IsSpace (r : Nat) : Bool :=
  r = 0x09 ∨ r = 0x0A ∨ r = 0x0B ∨ r = 0x0C ∨ r = 0x0D ∨ r = 0x20 ∨ r = 0x85 ∨ r = 0xA0 ∨
  r = 0x1680 ∨ (0x2000 ≤ r ∧ r ≤ 0x200A) ∨ r = 0x2028 ∨ r = 0x2029 ∨ r = 0x202F ∨
  r = 0x205F ∨ r = 0x3000

/-- Drop the trailing runes that satisfy `f`. -/
def dropTrailing (f : Nat → Bool) : List (Nat × GoString) → List (Nat × GoString)
  | [] => []
  | x :: xs =>
    match dropTrailing f xs with
    | [] => if f x.1 then [] else [x]
    | y :: r => x :: y :: r

/-- `strings.TrimSpace(s)`: `s` without its leading and trailing white space,
as defined by Unicode. -/
def TrimSpace (s : GoString) : GoString :=
  (dropTrailing IsSpace ((runes s).dropWhile (fun c => IsSpace c.1))).flatMap (fun c => c.2)

/-! ## The index heuristic -/

/-- `extractColumnsFromCreateQuery`: `none` is a run-time panic of the slice
expression `query[orderByIndex+8:]`. -/
def extractColumnsFromCreateQuery (unicodeToUpper : Nat → Nat) (query : GoString) :
    Option (List GoString) :=
  let columns : List GoString := []
  match Index (ToUpper unicodeToUpper query) (lit "ORDER BY") with
  | some orderByIndex =>
    match sliceFrom query (orderByIndex + 8) with
    | none => none
    | some orderByClause =>
      let orderByClause :=
        match IndexAny orderByClause (lit " \n\t,;") with
        | some endIndex => orderByClause.take endIndex
        | none => orderByClause
      some ((Split orderByClause (lit ",")).foldl
        (fun columns col =>
          let col := TrimSpace col
          if col ≠ lit "" then columns ++ [col] else columns)
        columns)
  | none => some columns

/-! ## Pending changes -/

/-- Modelled from the spec: `models.DMLType` is declared outside this file;
the spec names the three kinds of change.  The driver switches on the type
without a default case, so a value that is none of the three is kept as
`unlisted`: no case of the switch runs for it. -/
inductive DMLType where
  | DMLInsertType
  | DMLUpdateType
  | DMLDeleteType
  | unlisted (tag : Nat)
deriving DecidableEq, Repr

/-- Modelled from the spec: `models.CellValue`, one `(Column, Value)` pair of a change. -/
structure CellValue where
  Column : GoString
  Value : GoValue
deriving DecidableEq, Repr

/-- Modelled from the spec: `models.PrimaryKeyInfo`, one `(Name, Value)` pair
of the row identity. -/
structure PrimaryKeyInfo where
  Name : GoString
  Value : GoValue
deriving DecidableEq, Repr

/-- Modelled from the spec: `models.DBDMLChange`, one pending row edit. -/
structure DBDMLChange where
  Type_ : DMLType
  Database : GoString
  Table : GoString
  Values : List CellValue
  PrimaryKeyInfo : List PrimaryKeyInfo
deriving DecidableEq, Repr

/-- Modelled from the spec: `models.Query`, a built statement and its arguments. -/
structure Query where
  Text : GoString
  Args : List GoValue
deriving DecidableEq, Repr

/-- `Clickhouse.DMLChangeToQueryString`: the preview text and the error, which
is always `nil` (`none`). -/
def DMLChangeToQueryString (change : DBDMLChange) : GoString × Option GoError :=
  let queryStr : GoString := lit ""
  let formattedTableName := formatTableName change.Database change.Table
  let queryStr :=
    match change.Type_ with
    | .DMLInsertType =>
      let columnNames := change.Values.foldl (fun acc val => acc ++ [val.Column]) []
      let values := change.Values.foldl (fun acc val => acc ++ [FormatArg val.Value]) []
      lit "INSERT INTO " ++ formattedTableName ++ lit " (" ++ Join columnNames (lit ", ") ++
        lit ") VALUES (" ++ Join values (lit ", ") ++ lit ")"
    | .DMLUpdateType =>
      let setClauses := change.Values.foldl
        (fun acc val => acc ++ [val.Column ++ lit " = " ++ FormatArg val.Value]) []
      let whereClauses := change.PrimaryKeyInfo.foldl
        (fun acc pk => acc ++ [pk.Name ++ lit " = " ++ FormatArg pk.Value]) []
      lit "ALTER TABLE " ++ formattedTableName ++ lit " UPDATE " ++
        Join setClauses (lit ", ") ++ lit " WHERE " ++ Join whereClauses (lit " AND ")
    | .DMLDeleteType =>
      let whereClauses := change.PrimaryKeyInfo.foldl
        (fun acc pk => acc ++ [pk.Name ++ lit " = " ++ FormatArg pk.Value]) []
      lit "ALTER TABLE " ++ formattedTableName ++ lit " DELETE WHERE " ++
        Join whereClauses (lit " AND ")
    | .unlisted _ => queryStr
  (queryStr, none)

/-- The three query builders `ExecutePendingChanges` calls; they are declared
outside this file and are taken as given.  In Go each also receives the
driver, which is this one. -/
structure QueryBuilders where
  buildInsertQuery : GoString → List CellValue → Query
  buildUpdateQuery : GoString → List CellValue → List PrimaryKeyInfo → Query
  buildDeleteQuery : GoString → List PrimaryKeyInfo → Query

/-- The loop of `Clickhouse.ExecutePendingChanges`: the queries appended, in order. -/
def pendingQueries (b : QueryBuilders) (changes : List DBDMLChange) : List Query :=
  changes.foldl
    (fun queries change =>
      let formattedTableName := formatTableName change.Database change.Table
      match change.Type_ with
      | .DMLInsertType => queries ++ [b.buildInsertQuery formattedTableName change.Values]
      | .DMLUpdateType =>
        queries ++ [b.buildUpdateQuery formattedTableName change.Values change.PrimaryKeyInfo]
      | .DMLDeleteType => queries ++ [b.buildDeleteQuery formattedTableName change.PrimaryKeyInfo]
      | .unlisted _ => queries)
    []

/-- Execute the queries in list order on the transaction's working state,
stopping at the first failure. -/
def execAll {σ : Type} (exec : σ → Query → Except GoError σ) : σ → List Query → Except GoError σ
  | tx, [] => .ok tx
  | tx, q :: qs =>
    match exec tx q with
    | .error e => .error e
    | .ok tx1 => execAll exec tx1 qs

/-- Modelled from the spec: `queriesInTransaction` is declared outside this
file.  Open one transaction on the database state `db`, execute each query in
list order, roll the whole transaction back on the first failure and return
that error, commit only if every query succeeded and return `nil`.  The
result is the returned error and the database state after the call; `exec`
is the engine executing one statement inside the transaction. -/
def queriesInTransaction {σ : Type} (exec : σ → Query → Except GoError σ) (db : σ)
    (queries : List Query) : Option GoError × σ :=
  match execAll exec db queries with
  | .error e => (some e, db)
  | .ok tx => (none, tx)

/-- `Clickhouse.ExecutePendingChanges`: build the queries, run them in one transaction. -/
def ExecutePendingChanges {σ : Type} (b : QueryBuilders)
    (exec : σ → Query → Except GoError σ) (db : σ) (changes : List DBDMLChange) :
    Option GoError × σ :=
  let queries := pendingQueries b changes
  queriesInTransaction exec db queries

/-! ## Rendering fetched rows -/

/-- Go's `sql.NullString`. -/
structure NullString where
  String : GoString
  Valid : Bool
deriving DecidableEq, Repr

/-- One scan destination of `GetRecords` after `Scan` has filled it: a
`*net.IP` (`none` is the nil pointer; an address is carried as the text its
`String()` method prints) or a `*sql.NullString`. -/
inductive ScanDest where
  | ip (v : Option GoString)
  | nullString (v : NullString)
deriving DecidableEq, Repr

/-- The destinations `GetRecords` allocates for one row: one per column, a
`*net.IP` for a column whose database type name is `IPv4` or `IPv6`, a
`*sql.NullString` for any other. -/
def newRowValues (columns columnTypes : List GoString) : List ScanDest :=
  (List.range columns.length).map (fun i =>
    if columnTypes.getD i [] = lit "IPv4" ∨ columnTypes.getD i [] = lit "IPv6" then
      ScanDest.ip (some [])
    else ScanDest.nullString ⟨[], false⟩)

/-- `Scan` writes through each destination pointer: the filled destinations
are as many as the allocated ones, each of the type that was allocated. -/
def sameKind : ScanDest → ScanDest → Bool
  | .ip (some _), .ip (some _) => true
  | .nullString _, .nullString _ => true
  | _, _ => false

/-- The type switch of `GetRecords` on one filled destination. -/
def renderCell (col : ScanDest) : GoString :=
  match col with
  | .ip v =>
    match v with
    | none => lit "NULL&"
    | some text => text
  | .nullString v =>
    if v.Valid then
      if v.String = lit "" then lit "EMPTY&" else v.String
    else lit "NULL&"

/-- The row loop of `GetRecords`: one cell appended per destination. -/
def renderRow (rowValues : List ScanDest) : List GoString :=
  rowValues.foldl (fun row col => row ++ [renderCell col]) []

/-- Follows the spec's words: the query one change contributes, built by the
builder for the change's type from the formatted table name and the change's
values and row identity; `none` for a type that is not one of the three. -/
def queryFor (b : QueryBuilders) (change : DBDMLChange) : Option Query :=
  match change.Type_ with
  | .DMLInsertType =>
    some (b.buildInsertQuery (formatTableName change.Database change.Table) change.Values)
  | .DMLUpdateType =>
    some (b.buildUpdateQuery (formatTableName change.Database change.Table) change.Values
      change.PrimaryKeyInfo)
  | .DMLDeleteType =>
    some (b.buildDeleteQuery (formatTableName change.Database change.Table)
      change.PrimaryKeyInfo)
  | .unlisted _ => none

/-- A decimal digit byte. -/
def IsDigit (d : Nat) : Prop := 48 ≤ d ∧ d ≤ 57

/-- Follows the spec's words: a fixed-point decimal text with six fractional
digits and no exponent: an optional minus sign, at least one integer digit, a
point, six digits. -/
def FixedPointSix (t : GoString) : Prop :=
  ∃ sign ip frac, (sign = lit "" ∨ sign = lit "-") ∧ ip ≠ [] ∧ (∀ d ∈ ip, IsDigit d) ∧
    frac.length = 6 ∧ (∀ d ∈ frac, IsDigit d) ∧ t = sign ++ ip ++ lit "." ++ frac

/-- Follows the spec's words: the text with all trailing zeros removed. -/
def stripTrailingZeros (t : GoString) : GoString :=
  (t.reverse.dropWhile (fun c => c = 48)).reverse

/-- Follows the spec's words: all trailing zeros removed, except that when this
leaves the text ending in a point one zero is appended. -/
def normalizeFloatText (t : GoString) : GoString :=
  if (stripTrailingZeros t).getLast? = some 46 then stripTrailingZeros t ++ lit "0"
  else stripTrailingZeros t

/-- The sign `%f` prints for a finite float. -/
def signText (neg : Bool) : GoString := if neg then lit "-" else lit ""

/-- The integer digits `%f` prints for the finite float `mant * 2^exp`. -/
def intText (mant : Nat) (exp : Int) : GoString :=
  formatNat (roundMillionths mant exp / 1000000)

/-- The six fractional digits `%f` prints for the finite float `mant * 2^exp`. -/
def fracText (mant : Nat) (exp : Int) : GoString :=
  sixDigits (roundMillionths mant exp % 1000000)

/-- Follows the spec's words: the `WHERE` predicate, `name = value` for
every entry of the row identity in its given order, joined with `AND`. -/
def wherePredicate (pks : List PrimaryKeyInfo) : GoString :=
  (lit " AND ").intercalate (pks.map (fun pk => pk.Name ++ lit " = " ++ FormatArg pk.Value))

/-- Follows the spec's words: the `SET` list, `column = value` for every
entry of the values in its given order, joined with a comma. -/
def setList (vals : List CellValue) : GoString :=
  (lit ", ").intercalate (vals.map (fun v => v.Column ++ lit " = " ++ FormatArg v.Value))

/-- Follows the spec's words: the insert text with every column name rendered
by the identifier formatter `FormatReference`. -/
def insertTextQuotedColumns (change : DBDMLChange) : GoString :=
  lit "INSERT INTO " ++ formatTableName change.Database change.Table ++ lit " (" ++
    (lit ", ").intercalate (change.Values.map (fun v => FormatReference v.Column)) ++
    lit ") VALUES (" ++
    (lit ", ").intercalate (change.Values.map (fun v => FormatArg v.Value)) ++ lit ")"

/-- A case table for examples: it agrees with Go's `unicode.ToUpper` on ASCII
(`a`..`z` to `A`..`Z`, every other ASCII rune to itself) and on U+0250, whose
upper case is U+2C6F; every other rune is left alone. -/
def sampleToUpper (r : Nat) : Nat :=
  if r = 0x250 then 0x2C6F
  else if 97 ≤ r ∧ r ≤ 122 then r - 32
  else r

/-- The first failure of a batch: the queries before `q` all succeed, taking
the working state to `tx`, and `q` fails there with `e`. -/
def FirstFailure {σ : Type} (exec : σ → Query → Except GoError σ) (db : σ)
    (queries : List Query) (e : GoError) : Prop :=
  ∃ pre q post tx, queries = pre ++ q :: post ∧ execAll exec db pre = .ok tx ∧
    exec tx q = .error e

/-- A toy engine for examples: the state counts the executed statements and a
statement with an empty text is rejected. -/
def countingExec (n : Nat) (q : Query) : Except GoError Nat :=
  if q.Text = [] then .error (lit "empty query") else .ok (n + 1)

/-- Builders for examples: the statement text is the table name, except that
a delete builds an empty text. -/
def sampleBuilders : QueryBuilders where
  buildInsertQuery := fun t _ => ⟨t, []⟩
  buildUpdateQuery := fun t _ _ => ⟨t, []⟩
  buildDeleteQuery := fun _ _ => ⟨[], []⟩

/-- An example change of the given type on table `d.t`. -/
def sampleChange (ty : DMLType) : DBDMLChange :=
  ⟨ty, lit "d", lit "t", [⟨lit "name", .str (lit "Ada")⟩], [⟨lit "id", .int 7⟩]⟩

/-! ## Lemmas on the loops -/

theorem lit_empty : lit "" = [] := rfl

theorem lit_quote : lit "'" = [39] := rfl

theorem lit_point : lit "." = [46] := rfl

theorem foldl_append_singleton {α β : Type} (f : α → β) (l : List α) (init : List β) :
    l.foldl (fun acc x => acc ++ [f x]) init = init ++ l.map f := by
  induction l generalizing init with
  | nil => simp
  | cons a l ih => simp [ih]

theorem pendingQueries_loop (b : QueryBuilders) (changes : List DBDMLChange)
    (init : List Query) :
    changes.foldl
      (fun queries change =>
        let formattedTableName := formatTableName change.Database change.Table
        match change.Type_ with
        | .DMLInsertType => queries ++ [b.buildInsertQuery formattedTableName change.Values]
        | .DMLUpdateType =>
          queries ++ [b.buildUpdateQuery formattedTableName change.Values change.PrimaryKeyInfo]
        | .DMLDeleteType =>
          queries ++ [b.buildDeleteQuery formattedTableName change.PrimaryKeyInfo]
        | .unlisted _ => queries)
      init = init ++ changes.filterMap (queryFor b) := by
  induction changes generalizing init with
  | nil => simp
  | cons c cs ih =>
    rw [List.foldl_cons, ih]
    cases hc : c.Type_ <;> simp [queryFor, hc, List.filterMap_cons]

theorem pendingQueries_eq_filterMap (b : QueryBuilders) (changes : List DBDMLChange) :
    pendingQueries b changes = changes.filterMap (queryFor b) := by
  unfold pendingQueries
  rw [pendingQueries_loop]
  simp

theorem execAll_append {σ : Type} (exec : σ → Query → Except GoError σ) (db tx : σ)
    (pre rest : List Query) (h : execAll exec db pre = .ok tx) :
    execAll exec db (pre ++ rest) = execAll exec tx rest := by
  induction pre generalizing db with
  | nil => simp [execAll] at h; simp [h]
  | cons q qs ih =>
    simp only [List.cons_append, execAll] at h ⊢
    cases hq : exec db q with
    | error e => simp [hq] at h
    | ok tx1 => simp only [hq] at h ⊢; exact ih tx1 h

theorem execAll_error_iff {σ : Type} (exec : σ → Query → Except GoError σ) (db : σ)
    (queries : List Query) (e : GoError) :
    execAll exec db queries = .error e ↔ FirstFailure exec db queries e := by
  induction queries generalizing db with
  | nil =>
    constructor
    · intro h; simp [execAll] at h
    · rintro ⟨pre, q, post, tx, h, _, _⟩; simp at h
  | cons q qs ih =>
    constructor
    · intro h
      simp only [execAll] at h
      cases hq : exec db q with
      | error e1 =>
        simp only [hq] at h
        injection h with h
        subst h
        exact ⟨[], q, qs, db, by simp, by simp [execAll], hq⟩
      | ok tx1 =>
        simp only [hq] at h
        obtain ⟨pre, q1, post, tx, h1, h2, h3⟩ := (ih tx1).1 h
        exact ⟨q :: pre, q1, post, tx, by simp [h1], by simp [execAll, hq, h2], h3⟩
    · rintro ⟨pre, q1, post, tx, h1, h2, h3⟩
      rw [h1, execAll_append exec db tx pre (q1 :: post) h2]
      simp [execAll, h3]

/-! ## The claims -/

/-- C1: `ExecutePendingChanges` is atomic.  The call returns an error `e`
exactly when some query of the batch fails with `e` after all the queries
before it succeeded (the first failure); whenever it returns an error the
database state after the call is the state before it; it returns `nil`
exactly when every query succeeded, and the state is then the one reached by
executing every query in order. -/
theorem C1_execute_pending_changes_atomic {σ : Type} (b : QueryBuilders)
    (exec : σ → Query → Except GoError σ) (db : σ) (changes : List DBDMLChange) :
    (∀ e, (ExecutePendingChanges b exec db changes).1 = some e ↔
      FirstFailure exec db (pendingQueries b changes) e) ∧
    ((ExecutePendingChanges b exec db changes).1 ≠ none →
      (ExecutePendingChanges b exec db changes).2 = db) ∧
    ((ExecutePendingChanges b exec db changes).1 = none ↔
      execAll exec db (pendingQueries b changes) =
        .ok (ExecutePendingChanges b exec db changes).2) := by
  simp only [ExecutePendingChanges, queriesInTransaction]
  refine ⟨fun e => ?_, ?_, ?_⟩
  · rw [← execAll_error_iff]
    cases h : execAll exec db (pendingQueries b changes) <;> simp
  · cases h : execAll exec db (pendingQueries b changes) <;> simp
  · cases h : execAll exec db (pendingQueries b changes) <;> simp

/-- C1 at a batch of an update followed by a delete the engine rejects: the
error of the delete is returned and the state is the one before the call. -/
theorem C1_execute_pending_changes_atomic_witness :
    ExecutePendingChanges sampleBuilders countingExec 5
      [sampleChange .DMLUpdateType, sampleChange .DMLDeleteType] =
        (some (lit "empty query"), 5) ∧
    FirstFailure countingExec 5
      (pendingQueries sampleBuilders [sampleChange .DMLUpdateType, sampleChange .DMLDeleteType])
      (lit "empty query") :=
  ⟨by decide,
   ((C1_execute_pending_changes_atomic sampleBuilders countingExec 5
      [sampleChange .DMLUpdateType, sampleChange .DMLDeleteType]).1 (lit "empty query")).1
      (by decide)⟩

/-- C2: for a list of changes each of type insert, update or delete,
`ExecutePendingChanges` hands the transaction executor exactly one query per
change, in input order: the list has the length of the input and its i-th
element is the query built for the i-th change. -/
theorem C2_one_query_per_change {σ : Type} (b : QueryBuilders)
    (exec : σ → Query → Except GoError σ) (db : σ) (changes : List DBDMLChange)
    (h : ∀ c ∈ changes, c.Type_ = .DMLInsertType ∨ c.Type_ = .DMLUpdateType ∨
      c.Type_ = .DMLDeleteType) :
    ExecutePendingChanges b exec db changes =
      queriesInTransaction exec db (pendingQueries b changes) ∧
    (pendingQueries b changes).length = changes.length ∧
    ∀ i : Nat, (pendingQueries b changes)[i]?.map some = changes[i]?.map (queryFor b) := by
  have hmap : (pendingQueries b changes).map some = changes.map (queryFor b) := by
    rw [pendingQueries_eq_filterMap]
    induction changes with
    | nil => simp
    | cons c cs ih =>
      have hc := h c (List.mem_cons_self c cs)
      have ih1 := ih (fun x hx => h x (List.mem_cons_of_mem c hx))
      rcases hc with hc | hc | hc <;>
        simp [List.filterMap_cons, queryFor, hc, ih1]
  refine ⟨rfl, ?_, fun i => ?_⟩
  · have := congrArg List.length hmap
    simpa using this
  · have := congrArg (fun l => l[i]?) hmap
    simpa using this

/-- C2 at an insert followed by a delete: two queries, in that order. -/
theorem C2_one_query_per_change_witness :
    (pendingQueries sampleBuilders
      [sampleChange .DMLInsertType, sampleChange .DMLDeleteType]).length = 2 :=
  (C2_one_query_per_change sampleBuilders countingExec 0
    [sampleChange .DMLInsertType, sampleChange .DMLDeleteType]
    (by decide)).2.1

theorem replaceAll_quote (s : GoString) :
    ReplaceAll s (lit "'") (lit "''") = doubleQuotes s := by
  have hq : lit "'" = [39] := rfl
  have hqq : lit "''" = [39, 39] := rfl
  rw [hq, hqq]
  unfold ReplaceAll doubleQuotes
  induction s with
  | nil => simp [replaceLoop]
  | cons c s ih =>
    by_cases hc : c = 39
    · subst hc
      simp [replaceLoop, HasPrefix, ih]
    · have hc1 : ¬ (39 = c) := fun h => hc h.symm
      simp [replaceLoop, HasPrefix, ih, hc, hc1]

theorem undouble_double (s : GoString) : undoubleQuotes (doubleQuotes s) = s := by
  induction s with
  | nil => simp [doubleQuotes, undoubleQuotes]
  | cons c s ih =>
    have hcons : doubleQuotes (c :: s) =
        (if c = 39 then [39, 39] else [c]) ++ doubleQuotes s := by
      simp [doubleQuotes]
    rw [hcons]
    by_cases hc : c = 39
    · subst hc
      simp [undoubleQuotes, ih]
    · simp only [hc, if_false, List.singleton_append]
      cases hd : doubleQuotes s with
      | nil =>
        rw [hd] at ih
        simp [undoubleQuotes] at ih ⊢
        exact ih
      | cons d r =>
        rw [hd] at ih
        simp [undoubleQuotes, hc, ih]

theorem read_quoted (body : GoString) :
    sqlReadLiteral (lit "'" ++ body ++ lit "'") = some (undoubleQuotes body) := by
  have hq : lit "'" = [39] := rfl
  rw [hq]
  simp [sqlReadLiteral, List.dropLast_concat]

/-- C3: for every string that contains a single quote, and for every byte
sequence, `FormatArg` returns a quote, the text with every quote doubled, and
a quote; reading that literal back (strip the outer quotes, undouble the
quotes of the body) yields the original text. -/
theorem C3_quote_doubling_roundtrip (s : GoString) :
    (39 ∈ s →
      FormatArg (.str s) = lit "'" ++ doubleQuotes s ++ lit "'" ∧
      sqlReadLiteral (FormatArg (.str s)) = some s) ∧
    (FormatArg (.bytes s) = lit "'" ++ doubleQuotes s ++ lit "'" ∧
      sqlReadLiteral (FormatArg (.bytes s)) = some s) := by
  have hb : FormatArg (.bytes s) = lit "'" ++ doubleQuotes s ++ lit "'" := by
    simp [FormatArg, replaceAll_quote]
  refine ⟨fun hmem => ?_, hb, ?_⟩
  · have h1 : s ≠ lit "NULL" := by
      intro h; rw [h] at hmem; revert hmem; decide
    have h2 : s ≠ lit "DEFAULT" := by
      intro h; rw [h] at hmem; revert hmem; decide
    have hs : FormatArg (.str s) = lit "'" ++ doubleQuotes s ++ lit "'" := by
      simp [FormatArg, replaceAll_quote, h1, h2]
    exact ⟨hs, by rw [hs, read_quoted, undouble_double]⟩
  · rw [hb, read_quoted, undouble_double]

/-- C3 at the string `it's`: it renders as `'it''s'`, which reads back as `it's`. -/
theorem C3_quote_doubling_roundtrip_witness :
    FormatArg (.str (lit "it's")) = lit "'" ++ doubleQuotes (lit "it's") ++ lit "'" ∧
    sqlReadLiteral (FormatArg (.str (lit "it's"))) = some (lit "it's") :=
  (C3_quote_doubling_roundtrip (lit "it's")).1 (by decide)

theorem trimRightByte_cons (c x : Nat) (s : GoString) :
    trimRightByte c (x :: s) =
      match trimRightByte c s with
      | [] => if x = c then [] else [x]
      | y :: r => x :: y :: r := rfl

theorem trimRightByte_append (c : Nat) (a b : GoString) :
    trimRightByte c (a ++ b) =
      if trimRightByte c b = [] then trimRightByte c a else a ++ trimRightByte c b := by
  induction a with
  | nil => by_cases h : trimRightByte c b = [] <;> simp [h, trimRightByte]
  | cons x a ih =>
    by_cases h : trimRightByte c b = []
    · simp only [h, if_true] at ih ⊢
      rw [List.cons_append, trimRightByte_cons, ih, trimRightByte_cons]
    · simp only [h, if_false] at ih ⊢
      rw [List.cons_append, trimRightByte_cons, ih]
      cases hab : a ++ trimRightByte c b with
      | nil => simp at hab; exact absurd hab.2 h
      | cons y r => simp [hab]

theorem trimRightByte_concat (c x : Nat) (a : GoString) :
    trimRightByte c (a ++ [x]) = if x = c then trimRightByte c a else a ++ [x] := by
  rw [trimRightByte_append]
  by_cases h : x = c <;> simp [trimRightByte, h]

theorem trimRightByte_eq_strip (t : GoString) :
    trimRightByte 48 t = stripTrailingZeros t := by
  unfold stripTrailingZeros
  induction t using List.reverseRecOn with
  | nil => simp [trimRightByte]
  | append_singleton a x ih =>
    rw [trimRightByte_concat, List.reverse_append]
    by_cases h : x = 48
    · simp [h, List.dropWhile, ih]
    · simp [h, List.dropWhile]

theorem trimRightByte_last_ne (c : Nat) (t r : GoString) (x : Nat)
    (h : trimRightByte c t = r ++ [x]) : x ≠ c := by
  induction t using List.reverseRecOn with
  | nil => simp [trimRightByte] at h
  | append_singleton a y ih =>
    rw [trimRightByte_concat] at h
    by_cases hy : y = c
    · simp only [hy, if_true] at h; exact ih h
    · simp only [hy, if_false] at h
      have := List.append_inj_right' h rfl
      simp at this
      exact this ▸ hy

theorem trimRightByte_mem (c : Nat) (t : GoString) (x : Nat)
    (h : x ∈ trimRightByte c t) : x ∈ t := by
  induction t using List.reverseRecOn with
  | nil => simp [trimRightByte] at h
  | append_singleton a y ih =>
    rw [trimRightByte_concat] at h
    by_cases hy : y = c
    · simp only [hy, if_true] at h
      exact List.mem_append_left _ (ih h)
    · simpa [hy] using h

theorem hasSuffix_concat (a : GoString) (x c : Nat) :
    HasSuffix (a ++ [x]) [c] = decide (c = x) := by
  by_cases h : c = x <;> simp [HasSuffix, List.isSuffixOf, List.isPrefixOf, h]

theorem hasSuffix_point_iff (t : GoString) :
    HasSuffix t (lit ".") = true ↔ t.getLast? = some 46 := by
  rw [lit_point]
  induction t using List.reverseRecOn with
  | nil => simp [HasSuffix, List.isSuffixOf, List.isPrefixOf]
  | append_singleton a x _ =>
    rw [hasSuffix_concat]
    simp [eq_comm]

theorem formatArg_float_eq_normalize (v : GoFloat) :
    FormatArg (.float v) = normalizeFloatText (sprintF v) := by
  unfold normalizeFloatText
  simp only [FormatArg, trimRightByte_eq_strip]
  by_cases h : (stripTrailingZeros (sprintF v)).getLast? = some 46
  · simp [h, (hasSuffix_point_iff _).2 h]
  · have h1 : ¬ (HasSuffix (stripTrailingZeros (sprintF v)) (lit ".") = true) :=
      fun hh => h ((hasSuffix_point_iff _).1 hh)
    simp [h, h1]

theorem normalize_fixed (pre frac : GoString) (hfrac : ∀ d ∈ frac, IsDigit d) :
    normalizeFloatText (pre ++ lit "." ++ frac) =
      pre ++ lit "." ++
        (if stripTrailingZeros frac = [] then lit "0" else stripTrailingZeros frac) ∧
    (normalizeFloatText (pre ++ lit "." ++ frac)).getLast? ≠ some 46 := by
  have h0 : lit "0" = [48] := rfl
  have hstrip : stripTrailingZeros (pre ++ lit "." ++ frac) =
      pre ++ lit "." ++ stripTrailingZeros frac := by
    rw [← trimRightByte_eq_strip, ← trimRightByte_eq_strip, lit_point,
      trimRightByte_append]
    by_cases hf : trimRightByte 48 frac = []
    · simp [hf, trimRightByte_concat]
    · simp [hf]
  unfold normalizeFloatText
  rw [hstrip, lit_point, h0]
  by_cases hf : stripTrailingZeros frac = []
  · simp [hf]
  · obtain ⟨r, x, hx⟩ : ∃ r x, stripTrailingZeros frac = r ++ [x] := by
      rcases List.eq_nil_or_concat (stripTrailingZeros frac) with h | ⟨r, x, h⟩
      · exact absurd h hf
      · exact ⟨r, x, by rw [h, List.concat_eq_append]⟩
    have hmem : x ∈ frac := by
      apply trimRightByte_mem 48
      rw [trimRightByte_eq_strip, hx]
      simp
    have hx46 : x ≠ 46 := by
      have := hfrac x hmem
      unfold IsDigit at this
      omega
    have hlast : (pre ++ [46] ++ stripTrailingZeros frac).getLast? = some x := by
      rw [hx, ← List.append_assoc, List.getLast?_concat]
    have hne : ¬ (some x = some 46) := by simpa using hx46
    rw [hlast]
    simp only [hf, hne, if_false]
    exact ⟨trivial, by rw [hlast]; exact hne⟩

theorem digitsAux_ne_nil (fuel n : Nat) (acc : List Nat) (h : acc ≠ []) :
    digitsAux fuel n acc ≠ [] := by
  induction fuel generalizing n acc with
  | zero => simpa [digitsAux] using h
  | succ fuel ih =>
    unfold digitsAux
    split
    · simp
    · exact ih _ _ (by simp)

theorem digitsAux_digits (fuel n : Nat) (acc : List Nat) (h : ∀ d ∈ acc, IsDigit d) :
    ∀ d ∈ digitsAux fuel n acc, IsDigit d := by
  induction fuel generalizing n acc with
  | zero => simpa [digitsAux] using h
  | succ fuel ih =>
    unfold digitsAux
    split
    · intro d hd
      rcases List.mem_cons.1 hd with hd | hd
      · subst hd; unfold IsDigit; omega
      · exact h d hd
    · apply ih
      intro d hd
      rcases List.mem_cons.1 hd with hd | hd
      · subst hd; unfold IsDigit; omega
      · exact h d hd

theorem formatNat_ne_nil (n : Nat) : formatNat n ≠ [] := by
  unfold formatNat digitsAux
  split
  · simp
  · exact digitsAux_ne_nil _ _ _ (by simp)

theorem formatNat_digits (n : Nat) : ∀ d ∈ formatNat n, IsDigit d :=
  digitsAux_digits _ _ _ (by simp)

theorem sixDigits_length (f : Nat) : (sixDigits f).length = 6 := rfl

theorem sixDigits_digits (f : Nat) : ∀ d ∈ sixDigits f, IsDigit d := by
  intro d hd
  simp only [sixDigits, List.mem_cons, List.mem_singleton, List.not_mem_nil, or_false] at hd
  unfold IsDigit
  omega

theorem sprintF_finite (neg : Bool) (mant : Nat) (exp : Int) :
    sprintF (.finite neg mant exp) =
      signText neg ++ intText mant exp ++ lit "." ++ fracText mant exp := rfl

theorem formatArg_float_last (v : GoFloat) : (FormatArg (.float v)).getLast? ≠ some 46 := by
  cases v with
  | finite neg mant exp =>
    rw [formatArg_float_eq_normalize, sprintF_finite]
    exact (normalize_fixed _ _ (sixDigits_digits _)).2
  | inf neg => cases neg <;> decide
  | nan => decide

/-- C4, as amended: for every finite float, `%f` prints a fixed-point text
(sign, integer digits, a point, six digits, no exponent), and `FormatArg`
returns that text with all trailing zeros removed, a `0` appended when this
leaves it ending in the point: the sign and the digits before the point are
unchanged, and the fraction is the six digits without their trailing zeros, or
`0` when all six are zero.  For every float, finite or not, `FormatArg` is that
normalisation of the `%f` text and never ends in a point; NaN and the
infinities render as `NaN`, `+Inf`, `-Inf`.  The float nearest 3.1 (text
`3.100000`) renders as `3.1` and 3.0 renders as `3.0`. -/
theorem C4_float_rendering (neg : Bool) (mant : Nat) (exp : Int) :
    FixedPointSix (sprintF (.finite neg mant exp)) ∧
    sprintF (.finite neg mant exp) =
      signText neg ++ intText mant exp ++ lit "." ++ fracText mant exp ∧
    FormatArg (.float (.finite neg mant exp)) =
      signText neg ++ intText mant exp ++ lit "." ++
        (if stripTrailingZeros (fracText mant exp) = [] then lit "0"
         else stripTrailingZeros (fracText mant exp)) ∧
    (∀ v : GoFloat, FormatArg (.float v) = normalizeFloatText (sprintF v) ∧
      (FormatArg (.float v)).getLast? ≠ some 46 ∧
      HasSuffix (FormatArg (.float v)) (lit ".") = false) ∧
    (FormatArg (.float .nan) = lit "NaN" ∧ FormatArg (.float (.inf false)) = lit "+Inf" ∧
      FormatArg (.float (.inf true)) = lit "-Inf") ∧
    (sprintF (.finite false 6980579422424269 (-51)) = lit "3.100000" ∧
      FormatArg (.float (.finite false 6980579422424269 (-51))) = lit "3.1" ∧
      FormatArg (.float (.finite false 3 0)) = lit "3.0") := by
  refine ⟨?_, sprintF_finite neg mant exp, ?_, ?_, ?_, ?_⟩
  · refine ⟨signText neg, intText mant exp, fracText mant exp, ?_, formatNat_ne_nil _,
      formatNat_digits _, sixDigits_length _, sixDigits_digits _, sprintF_finite neg mant exp⟩
    cases neg <;> simp [signText]
  · rw [formatArg_float_eq_normalize, sprintF_finite]
    exact (normalize_fixed _ _ (sixDigits_digits _)).1
  · intro v
    refine ⟨formatArg_float_eq_normalize v, formatArg_float_last v, ?_⟩
    cases h : HasSuffix (FormatArg (.float v)) (lit ".") with
    | false => rfl
    | true => exact absurd ((hasSuffix_point_iff _).1 h) (formatArg_float_last v)
  · decide
  · decide

/-- C4 as stated fails at NaN: `FormatArg` returns `NaN`, which is not the
trimmed form of any fixed-point text with six fractional digits. -/
theorem C4_counterexample_nan :
    FormatArg (.float .nan) = lit "NaN" ∧
    ¬ ∃ t, FixedPointSix t ∧ FormatArg (.float .nan) = normalizeFloatText t := by
  refine ⟨by decide, ?_⟩
  rintro ⟨t, ⟨sign, ip, frac, _, _, _, _, hfrac, ht⟩, h⟩
  rw [ht, (normalize_fixed (sign ++ ip) frac hfrac).1] at h
  have hmem : 46 ∈ FormatArg (.float .nan) := by
    rw [h, lit_point]
    simp
  revert hmem
  decide

theorem Join_eq_intercalate (elems : List GoString) (sep : GoString) :
    Join elems sep = sep.intercalate elems := by
  induction elems with
  | nil => simp [Join, List.intercalate]
  | cons a rest ih =>
    cases rest with
    | nil => simp [Join, List.intercalate]
    | cons b rest =>
      simp only [Join, ih]
      simp [List.intercalate, List.intersperse]

theorem foldl_collect {α : Type} (f : α → GoString) (l : List α) :
    l.foldl (fun acc x => acc ++ [f x]) [] = l.map f := by
  rw [foldl_append_singleton]
  simp

/-- C5: for every update change, `DMLChangeToQueryString` returns no error and
the text `ALTER TABLE <table> UPDATE <S> WHERE <W>`, where `S` is
`column = FormatArg(value)` for every entry of the values, in order, joined by
a comma and a space, and `W` is `name = FormatArg(value)` for every entry of the
row identity, in order, joined by `AND`. -/
theorem C5_update_preview (database table : GoString) (vals : List CellValue)
    (pks : List PrimaryKeyInfo) :
    DMLChangeToQueryString ⟨.DMLUpdateType, database, table, vals, pks⟩ =
      (lit "ALTER TABLE " ++ formatTableName database table ++ lit " UPDATE " ++
        (lit ", ").intercalate
          (vals.map (fun v => v.Column ++ lit " = " ++ FormatArg v.Value)) ++
        lit " WHERE " ++
        (lit " AND ").intercalate
          (pks.map (fun pk => pk.Name ++ lit " = " ++ FormatArg pk.Value)),
       none) := by
  simp only [DMLChangeToQueryString]
  rw [foldl_collect (fun v : CellValue => v.Column ++ lit " = " ++ FormatArg v.Value),
    foldl_collect (fun pk : PrimaryKeyInfo => pk.Name ++ lit " = " ++ FormatArg pk.Value),
    Join_eq_intercalate, Join_eq_intercalate]

/-- C6: the delete preview is `ALTER TABLE <table> DELETE WHERE <W>` where `W`
is, character for character, the predicate the update preview ends with for
the same row identity; the delete text does not depend on the values. -/
theorem C6_delete_preview (database table : GoString) (vals vals2 : List CellValue)
    (pks : List PrimaryKeyInfo) :
    (DMLChangeToQueryString ⟨.DMLDeleteType, database, table, vals, pks⟩).1 =
      lit "ALTER TABLE " ++ formatTableName database table ++ lit " DELETE WHERE " ++
        wherePredicate pks ∧
    (DMLChangeToQueryString ⟨.DMLUpdateType, database, table, vals, pks⟩).1 =
      lit "ALTER TABLE " ++ formatTableName database table ++ lit " UPDATE " ++
        setList vals ++ lit " WHERE " ++ wherePredicate pks ∧
    DMLChangeToQueryString ⟨.DMLDeleteType, database, table, vals, pks⟩ =
      DMLChangeToQueryString ⟨.DMLDeleteType, database, table, vals2, pks⟩ := by
  refine ⟨?_, ?_, rfl⟩
  · simp only [DMLChangeToQueryString, wherePredicate]
    rw [foldl_collect (fun pk : PrimaryKeyInfo => pk.Name ++ lit " = " ++ FormatArg pk.Value),
      Join_eq_intercalate]
  · simp only [DMLChangeToQueryString, wherePredicate, setList]
    rw [foldl_collect (fun v : CellValue => v.Column ++ lit " = " ++ FormatArg v.Value),
      foldl_collect (fun pk : PrimaryKeyInfo => pk.Name ++ lit " = " ++ FormatArg pk.Value),
      Join_eq_intercalate, Join_eq_intercalate]

/-- C7, as amended: for every insert change, `DMLChangeToQueryString` returns
no error and `INSERT INTO <table> (<columns>) VALUES (<values>)`, where the
columns are the column names of the values, verbatim and in order, joined by
a comma and a space, and the values are each rendered by `FormatArg`, in the
same order, joined the same way; both lists have the length of the values. -/
theorem C7_insert_preview (database table : GoString) (vals : List CellValue)
    (pks : List PrimaryKeyInfo) :
    DMLChangeToQueryString ⟨.DMLInsertType, database, table, vals, pks⟩ =
      (lit "INSERT INTO " ++ formatTableName database table ++ lit " (" ++
        (lit ", ").intercalate (vals.map (fun v => v.Column)) ++ lit ") VALUES (" ++
        (lit ", ").intercalate (vals.map (fun v => FormatArg v.Value)) ++ lit ")",
       none) ∧
    (vals.foldl (fun acc val => acc ++ [val.Column]) ([] : List GoString)).length =
      vals.length ∧
    (vals.foldl (fun acc val => acc ++ [FormatArg val.Value]) ([] : List GoString)).length =
      vals.length := by
  refine ⟨?_, ?_, ?_⟩
  · simp only [DMLChangeToQueryString]
    rw [foldl_collect (fun v : CellValue => v.Column),
      foldl_collect (fun v : CellValue => FormatArg v.Value),
      Join_eq_intercalate, Join_eq_intercalate]
  · rw [foldl_collect (fun v : CellValue => v.Column)]; simp
  · rw [foldl_collect (fun v : CellValue => FormatArg v.Value)]; simp

/-- C7 as stated fails: for an insert of column `name` the preview names the
column verbatim, not between the backticks `FormatReference` adds. -/
theorem C7_counterexample_unquoted_column :
    (DMLChangeToQueryString (sampleChange .DMLInsertType)).1 =
      lit "INSERT INTO `d`.`t` (name) VALUES ('Ada')" ∧
    insertTextQuotedColumns (sampleChange .DMLInsertType) =
      lit "INSERT INTO `d`.`t` (`name`) VALUES ('Ada')" ∧
    (DMLChangeToQueryString (sampleChange .DMLInsertType)).1 ≠
      insertTextQuotedColumns (sampleChange .DMLInsertType) := by
  decide

theorem forall2_getElem? {α β : Type} {R : α → β → Prop} {l₁ : List α} {l₂ : List β}
    (h : List.Forall₂ R l₁ l₂) (i : Nat) (a : α) (ha : l₁[i]? = some a) :
    ∃ b, l₂[i]? = some b ∧ R a b := by
  induction h generalizing i with
  | nil => simp at ha
  | cons hab _ ih =>
    cases i with
    | zero =>
      simp only [List.getElem?_cons_zero, Option.some.injEq] at ha
      subst ha
      exact ⟨_, by simp, hab⟩
    | succ i =>
      simp only [List.getElem?_cons_succ] at ha ⊢
      exact ih i ha

theorem renderRow_eq_map (rowValues : List ScanDest) :
    renderRow rowValues = rowValues.map renderCell := by
  unfold renderRow
  rw [foldl_append_singleton]
  simp

theorem newRowValues_getElem? (columns columnTypes : List GoString) (i : Nat)
    (hi : i < columns.length) (h4 : columnTypes.getD i [] ≠ lit "IPv4")
    (h6 : columnTypes.getD i [] ≠ lit "IPv6") :
    (newRowValues columns columnTypes)[i]? = some (ScanDest.nullString ⟨[], false⟩) := by
  unfold newRowValues
  rw [List.getElem?_map, List.getElem?_range hi]
  simp only [List.getD_eq_getElem?_getD] at h4 h6
  simp [h4, h6]

/-- C8: a row of `GetRecords` scanned into the destinations allocated for its
columns renders to one cell per column; the cell of a column that is not an
IP column is `NULL&` for SQL NULL, `EMPTY&` for a valid empty string and the
string itself for a valid non-empty one; a NULL cell and an empty-string cell
never render to the same text. -/
theorem C8_sentinel_cells (columns columnTypes : List GoString) (rowValues : List ScanDest)
    (hscan : List.Forall₂ (fun a b => sameKind a b = true)
      (newRowValues columns columnTypes) rowValues) :
    (renderRow rowValues).length = columns.length ∧
    (∀ i : Nat, i < columns.length → columnTypes.getD i [] ≠ lit "IPv4" →
      columnTypes.getD i [] ≠ lit "IPv6" →
      ∃ v : NullString, rowValues[i]? = some (ScanDest.nullString v) ∧
        (v.Valid = false → (renderRow rowValues)[i]? = some (lit "NULL&")) ∧
        (v.Valid = true → v.String = lit "" →
          (renderRow rowValues)[i]? = some (lit "EMPTY&")) ∧
        (v.Valid = true → v.String ≠ lit "" →
          (renderRow rowValues)[i]? = some v.String)) ∧
    (∀ s : GoString, renderCell (.nullString ⟨s, false⟩) ≠
      renderCell (.nullString ⟨lit "", true⟩)) := by
  refine ⟨?_, ?_, ?_⟩
  · rw [renderRow_eq_map, List.length_map, ← hscan.length_eq]
    simp [newRowValues]
  · intro i hi h4 h6
    obtain ⟨d, hd, hk⟩ :=
      forall2_getElem? hscan i _ (newRowValues_getElem? columns columnTypes i hi h4 h6)
    cases d with
    | ip v => cases v <;> simp [sameKind] at hk
    | nullString v =>
      refine ⟨v, hd, ?_, ?_, ?_⟩
      · intro hv
        rw [renderRow_eq_map, List.getElem?_map, hd]
        simp [renderCell, hv]
      · intro hv hs
        rw [renderRow_eq_map, List.getElem?_map, hd]
        simp [renderCell, hv, hs]
      · intro hv hs
        rw [renderRow_eq_map, List.getElem?_map, hd]
        simp [renderCell, hv, hs]
  · intro s
    show lit "NULL&" ≠ lit "EMPTY&"
    decide

/-- C8 at a row of three columns, a number, a name and an IPv4 address: the
row has three cells. -/
theorem C8_sentinel_cells_witness :
    (renderRow [.nullString ⟨lit "", true⟩, .nullString ⟨lit "x", false⟩,
      .ip (some (lit "10.0.0.1"))]).length = 3 ∧
    renderRow [.nullString ⟨lit "", true⟩, .nullString ⟨lit "x", false⟩,
      .ip (some (lit "10.0.0.1"))] = [lit "EMPTY&", lit "NULL&", lit "10.0.0.1"] :=
  ⟨(C8_sentinel_cells [lit "id", lit "name", lit "addr"]
      [lit "UInt32", lit "Nullable(String)", lit "IPv4"]
      [.nullString ⟨lit "", true⟩, .nullString ⟨lit "x", false⟩, .ip (some (lit "10.0.0.1"))]
      (List.Forall₂.cons (by decide) (List.Forall₂.cons (by decide)
        (List.Forall₂.cons (by decide) List.Forall₂.nil)))).1,
   by decide⟩

/-- C9: `GetConstraints` and `GetForeignKeys` fail (returning no rows) exactly
when the database or the table name is the empty string, and for non-empty
names they succeed with exactly one row, the fixed header of each. -/
theorem C9_header_only (database table : GoString) :
    ((isError (GetConstraints database table) = true ↔ (database = lit "" ∨ table = lit "")) ∧
     (isError (GetForeignKeys database table) = true ↔ (database = lit "" ∨ table = lit ""))) ∧
    ((database ≠ lit "" ∧ table ≠ lit "") →
      GetConstraints database table =
        .ok [[lit "CONSTRAINT_NAME", lit "COLUMN_NAME", lit "REFERENCED_TABLE_NAME",
              lit "REFERENCED_COLUMN_NAME"]] ∧
      GetForeignKeys database table =
        .ok [[lit "TABLE_NAME", lit "COLUMN_NAME", lit "CONSTRAINT_NAME",
              lit "REFERENCED_COLUMN_NAME", lit "REFERENCED_TABLE_NAME"]]) := by
  unfold GetConstraints GetForeignKeys
  by_cases hd : database = lit "" <;> by_cases ht : table = lit "" <;>
    simp [hd, ht, isError]

theorem indexAny_none (s chars : GoString) (h : IndexAny s chars = none) :
    ∀ c ∈ s, c ∉ chars := by
  induction s with
  | nil => simp
  | cons x s ih =>
    unfold IndexAny at h
    by_cases hx : x ∈ chars
    · simp [hx] at h
    · simp only [hx, if_false, Option.map_eq_none'] at h
      intro c hc
      rcases List.mem_cons.1 hc with hc | hc
      · subst hc; exact hx
      · exact ih h c hc

theorem indexAny_take (s chars : GoString) (i : Nat) (h : IndexAny s chars = some i) :
    ∀ c ∈ s.take i, c ∉ chars := by
  induction s generalizing i with
  | nil => simp
  | cons x s ih =>
    unfold IndexAny at h
    by_cases hx : x ∈ chars
    · simp only [hx, if_true, Option.some.injEq] at h
      subst h
      simp
    · simp only [hx, if_false, Option.map_eq_some'] at h
      obtain ⟨j, hj, hij⟩ := h
      subst hij
      intro c hc
      rw [List.take_succ_cons] at hc
      rcases List.mem_cons.1 hc with hc | hc
      · subst hc; exact hx
      · exact ih j hj c hc

theorem split_without_comma (s : GoString) (h : ∀ c ∈ s, c ∉ lit " \n\t,;") :
    Split s (lit ",") = [s] := by
  have hc : lit "," = [44] := rfl
  rw [hc]
  unfold Split
  induction s with
  | nil => simp [splitLoop]
  | cons x s ih =>
    have hx : ¬ (44 = x) := by
      intro hx
      apply h x (List.mem_cons_self x s)
      rw [← hx]
      decide
    have ih1 := ih (fun c hc => h c (List.mem_cons_of_mem x hc))
    simp [splitLoop, HasPrefix, hx, ih1]

/-- C10: on a `CREATE TABLE` text whose `ORDER BY` clause lists `id, name`,
`extractColumnsFromCreateQuery` returns no column at all, whatever the letter
case of the keyword, and so it does on the text ClickHouse itself stores
(`ORDER BY (id, name) SETTINGS ...`): the clause is cut at the first space or
comma, which is the space right after the keyword.  On every text the result
holds at most one column. -/
theorem C10_order_by_columns_not_extracted (unicodeToUpper : Nat → Nat) :
    extractColumnsFromCreateQuery unicodeToUpper
      (lit "CREATE TABLE t (id Int32, name String) ENGINE = MergeTree ORDER BY id, name") =
        some [] ∧
    extractColumnsFromCreateQuery unicodeToUpper
      (lit "create table t (id Int32, name String) engine = MergeTree order by id, name") =
        some [] ∧
    extractColumnsFromCreateQuery unicodeToUpper
      (lit ("CREATE TABLE d.t (`id` Int32, `name` String) ENGINE = MergeTree " ++
        "ORDER BY (id, name) SETTINGS index_granularity = 8192")) = some [] ∧
    ∀ query : GoString,
      extractColumnsFromCreateQuery unicodeToUpper query = none ∨
      extractColumnsFromCreateQuery unicodeToUpper query = some [] ∨
      ∃ col, extractColumnsFromCreateQuery unicodeToUpper query = some [col] := by
  refine ⟨rfl, rfl, rfl, fun query => ?_⟩
  unfold extractColumnsFromCreateQuery
  generalize Index (ToUpper unicodeToUpper query) (lit "ORDER BY") = found
  cases found with
  | none => exact Or.inr (Or.inl rfl)
  | some orderByIndex =>
    dsimp only
    generalize sliceFrom query (orderByIndex + 8) = sliced
    cases sliced with
    | none => exact Or.inl rfl
    | some orderByClause =>
      right
      dsimp only
      rw [split_without_comma]
      · simp only [List.foldl_cons, List.foldl_nil, List.nil_append]
        split
        · exact Or.inr ⟨_, rfl⟩
        · exact Or.inl rfl
      · cases h : IndexAny orderByClause (lit " \n\t,;") with
        | none => exact indexAny_none _ _ h
        | some endIndex => exact indexAny_take _ _ _ h

theorem toUpper_congr (up up2 : Nat → Nat) (s : GoString)
    (h : ∀ c ∈ runes s, up c.1 = up2 c.1) : ToUpper up s = ToUpper up2 s := by
  have hlist : ∀ l : List (Nat × GoString), (∀ c ∈ l, up c.1 = up2 c.1) →
      l.flatMap (fun c => utf8EncodeRune (up c.1)) =
        l.flatMap (fun c => utf8EncodeRune (up2 c.1)) := by
    intro l hl
    induction l with
    | nil => rfl
    | cons c cs ih =>
      rw [List.flatMap_cons, List.flatMap_cons, hl c (List.mem_cons_self c cs),
        ih (fun d hd => hl d (List.mem_cons_of_mem c hd))]
  have hmap : Map up s = Map up2 s := hlist (runes s) h
  unfold ToUpper
  rw [hmap]

theorem extractColumns_congr (up up2 : Nat → Nat) (query : GoString)
    (h : ToUpper up query = ToUpper up2 query) :
    extractColumnsFromCreateQuery up query = extractColumnsFromCreateQuery up2 query := by
  unfold extractColumnsFromCreateQuery
  rw [h]

theorem hasPrefix_length (s pre : GoString) (h : HasPrefix s pre = true) :
    pre.length ≤ s.length := by
  unfold HasPrefix at h
  exact (List.isPrefixOf_iff_prefix.1 h).length_le

theorem index_bound (s substr : GoString) (i : Nat) (h : Index s substr = some i) :
    i + substr.length ≤ s.length := by
  induction s generalizing i with
  | nil =>
    unfold Index at h
    by_cases hs : substr = []
    · simp only [hs, if_true, Option.some.injEq] at h
      subst h
      simp [hs]
    · simp [hs] at h
  | cons c s ih =>
    unfold Index at h
    by_cases hp : HasPrefix (c :: s) substr = true
    · simp only [hp, if_true, Option.some.injEq] at h
      subst h
      simpa using hasPrefix_length _ _ hp
    · simp only [hp, Bool.false_eq_true, if_false, Option.map_eq_some'] at h
      obtain ⟨j, hj, hij⟩ := h
      subst hij
      have := ih j hj
      simp only [List.length_cons]
      omega

theorem toUpper_ascii_length (up : Nat → Nat) (s : GoString)
    (h : ∀ c ∈ s, c < 0x80) : (ToUpper up s).length = s.length := by
  have hall : s.all (fun c => decide (c < 0x80)) = true := by
    rw [List.all_eq_true]
    intro c hc
    simpa using h c hc
  unfold ToUpper
  simp only [hall, if_true]
  split <;> simp

theorem extractColumns_total_of_length (up : Nat → Nat) (query : GoString)
    (h : (ToUpper up query).length ≤ query.length) :
    ∃ columns, extractColumnsFromCreateQuery up query = some columns := by
  unfold extractColumnsFromCreateQuery
  cases hfound : Index (ToUpper up query) (lit "ORDER BY") with
  | none => exact ⟨_, rfl⟩
  | some orderByIndex =>
    have hb := index_bound _ _ _ hfound
    have h8 : (lit "ORDER BY").length = 8 := rfl
    have hle : orderByIndex + 8 ≤ query.length := by omega
    simp only [sliceFrom, hle, if_true]
    exact ⟨_, rfl⟩

/-- C11: `extractColumnsFromCreateQuery` can slice out of range.  Go's
`unicode.ToUpper` upper-cases ASCII letters and maps U+0250 (two bytes) to
U+2C6F (three bytes); for every case table that does so, the ten-byte text
`ɐORDER BY` is upper-cased to eleven bytes, the keyword is found at offset 3,
and `query[3+8:]` is out of range: the function panics, and so it does on a
`CREATE TABLE` text with a column named `ɐɐɐ`.  On a text of ASCII bytes only
the upper-cased copy has the length of the original and the function returns
a list. -/
theorem C11_slice_out_of_range (unicodeToUpper : Nat → Nat)
    (hascii : ∀ r, r < 0x80 →
      unicodeToUpper r = if 97 ≤ r ∧ r ≤ 122 then r - 32 else r)
    (hturned : unicodeToUpper 0x250 = 0x2C6F) :
    ((lit "ɐORDER BY").length = 10 ∧
      ToUpper unicodeToUpper (lit "ɐORDER BY") = lit "ⱯORDER BY" ∧
      Index (ToUpper unicodeToUpper (lit "ɐORDER BY")) (lit "ORDER BY") = some 3 ∧
      sliceFrom (lit "ɐORDER BY") (3 + 8) = none ∧
      extractColumnsFromCreateQuery unicodeToUpper (lit "ɐORDER BY") = none) ∧
    extractColumnsFromCreateQuery unicodeToUpper
      (lit "CREATE TABLE t (ɐɐɐ Int32, x Int32) ENGINE = MergeTree ORDER BY x") = none ∧
    (∀ query : GoString, (∀ c ∈ query, c < 0x80) →
      ∃ columns, extractColumnsFromCreateQuery unicodeToUpper query = some columns) := by
  have hagree : ∀ r, r = 0x250 ∨ r < 0x80 → unicodeToUpper r = sampleToUpper r := by
    intro r hr
    rcases hr with hr | hr
    · subst hr; rw [hturned]; rfl
    · rw [hascii r hr]
      have hne : r ≠ 0x250 := by omega
      simp [sampleToUpper, hne]
  have h1 : ToUpper unicodeToUpper (lit "ɐORDER BY") =
      ToUpper sampleToUpper (lit "ɐORDER BY") := by
    apply toUpper_congr
    intro c hc
    apply hagree
    revert c
    decide
  have h2 : ToUpper unicodeToUpper
        (lit "CREATE TABLE t (ɐɐɐ Int32, x Int32) ENGINE = MergeTree ORDER BY x") =
      ToUpper sampleToUpper
        (lit "CREATE TABLE t (ɐɐɐ Int32, x Int32) ENGINE = MergeTree ORDER BY x") := by
    apply toUpper_congr
    intro c hc
    apply hagree
    revert c
    decide
  refine ⟨⟨by decide, ?_, ?_, by decide, ?_⟩, ?_, ?_⟩
  · rw [h1]; decide
  · rw [h1]; decide
  · rw [extractColumns_congr _ _ _ h1]; decide
  · rw [extractColumns_congr _ _ _ h2]; decide
  · intro query hq
    exact extractColumns_total_of_length _ _ (le_of_eq (toUpper_ascii_length _ _ hq))

/-- C11 at the example case table: the text `ɐORDER BY` makes the function panic. -/
theorem C11_slice_out_of_range_witness :
    extractColumnsFromCreateQuery sampleToUpper (lit "ɐORDER BY") = none :=
  (C11_slice_out_of_range sampleToUpper
    (by
      intro r hr
      have hne : r ≠ 0x250 := by omega
      simp [sampleToUpper, hne])
    rfl).1.2.2.2.2

/-- C12: `FormatArg` renders the strings `NULL` and `DEFAULT` unchanged and
without quotes; every other string, also one that differs only in letter
case, is rendered between single quotes (its quotes doubled); a byte sequence
is always rendered between single quotes, also when its bytes spell `NULL` or
`DEFAULT`. -/
theorem C12_null_default_unquoted (s : GoString) :
    FormatArg (.str (lit "NULL")) = lit "NULL" ∧
    FormatArg (.str (lit "DEFAULT")) = lit "DEFAULT" ∧
    (s ≠ lit "NULL" → s ≠ lit "DEFAULT" →
      FormatArg (.str s) = lit "'" ++ doubleQuotes s ++ lit "'") ∧
    (FormatArg (.str (lit "null")) = lit "'null'" ∧
      FormatArg (.str (lit "Default")) = lit "'Default'" ∧
      FormatArg (.str (lit "NULL ")) = lit "'NULL '" ∧
      FormatArg (.str (lit "")) = lit "''") ∧
    FormatArg (.bytes s) = lit "'" ++ doubleQuotes s ++ lit "'" ∧
    FormatArg (.bytes (lit "NULL")) = lit "'NULL'" ∧
    FormatArg (.bytes (lit "DEFAULT")) = lit "'DEFAULT'" := by
  refine ⟨by decide, by decide, ?_, by decide, ?_, by decide, by decide⟩
  · intro h1 h2
    simp [FormatArg, replaceAll_quote, h1, h2]
  · simp [FormatArg, replaceAll_quote]

/-- C12 at the string `null`: it is not the keyword, so it is quoted. -/
theorem C12_null_default_unquoted_witness :
    FormatArg (.str (lit "null")) = lit "'" ++ doubleQuotes (lit "null") ++ lit "'" :=
  (C12_null_default_unquoted (lit "null")).2.2.1 (by decide) (by decide)

/-! ## Sample evaluations -/

/-- Sample renderings of `FormatArg`. -/
theorem formatArg_samples :
    FormatArg (.str (lit "it's")) = lit "'it''s'" ∧
    FormatArg (.str (lit "NULL")) = lit "NULL" ∧
    FormatArg (.bytes (lit "NULL")) = lit "'NULL'" ∧
    FormatArg (.int (-12)) = lit "-12" ∧
    FormatArg (.float (.finite false 5 (-1))) = lit "2.5" ∧
    FormatArg (.float (.finite true 1 (-40))) = lit "-0.0" ∧
    FormatArg (.float (.finite false 1 10)) = lit "1024.0" ∧
    sqlReadLiteral (lit "'it''s'") = some (lit "it's") := by
  decide

/-- Sample evaluations of the string functions. -/
theorem strings_samples :
    lit "ab" = [97, 98] ∧
    formatNat 1000 = lit "1000" ∧
    Split (lit "a,b,,c") (lit ",") = [lit "a", lit "b", lit "", lit "c"] ∧
    TrimSpace (lit "  a b \t") = lit "a b" ∧
    TrimSpace (lit "  é　 ") = lit "é" ∧
    Index (lit "xxORDER BY") (lit "ORDER BY") = some 2 ∧
    ReplaceAll (lit "a''b'") (lit "'") (lit "''") = lit "a''''b''" ∧
    Join [lit "a", lit "b", lit "c"] (lit ", ") = lit "a, b, c" ∧
    Map (fun r => if r = 0x250 then 0x2C6F else r) (lit "ɐa") = lit "Ɐa" := by
  decide

/-- Sample evaluations of `extractColumnsFromCreateQuery`: a column is found
only when it follows the keyword without a space. -/
theorem extractColumns_samples (unicodeToUpper : Nat → Nat) :
    extractColumnsFromCreateQuery unicodeToUpper (lit "create table t order by(id, name)") =
      some [lit "(id"] ∧
    extractColumnsFromCreateQuery unicodeToUpper (lit "create table t order byid") =
      some [lit "id"] ∧
    extractColumnsFromCreateQuery unicodeToUpper (lit "create table t") = some [] :=
  ⟨rfl, rfl, rfl⟩

end Lazysql
